import Mathlib

/-!
Verification of the movie-recommender extraction and recommendation
pipeline (`movie_recommender.py`).

Python strings are modelled as lists of characters (`Str := List Char`,
ASCII case model).  The regular expressions used by the source are
modelled by explicit character scanners that reproduce the backtracking
behaviour of each concrete pattern, and `difflib` similarity scores are
modelled by exact rationals (the float quotients `2*M/T` of the source
are correctly rounded images of these rationals, and for the string
lengths involved distinct rationals never collide as doubles).
-/

namespace MovieRec

/-- Python strings, modelled as lists of characters. -/
abbrev Str := List Char

/-- Python whitespace (`\s`, `str.strip()`): space, tab, LF, CR, VT, FF. -/
def pyIsSpace (c : Char) : Bool :=
  c = ' ' || c = '\t' || c = '\n' || c = '\r' || c = '\x0b' || c = '\x0c'

/-- `str.strip()`: remove leading and trailing whitespace. -/
def strip (cs : Str) : Str :=
  ((cs.dropWhile pyIsSpace).reverse.dropWhile pyIsSpace).reverse

/-- `str.lower()` (ASCII model). -/
def lower (cs : Str) : Str := cs.map Char.toLower

/-- `str.replace(" ", "")`: remove every space character. -/
def removeSpaces (cs : Str) : Str := cs.filter (fun c => c != ' ')

/-- Python substring test `needle in hay`. -/
def isSubstr (needle hay : Str) : Bool :=
  (List.range (hay.length + 1)).any (fun i => needle.isPrefixOf (hay.drop i))

/-- A movie record, the source's list `[Title, Genre, Rating, Year]`. -/
structure Movie where
  title : Str
  genre : Str
  rating : Str
  year : Str
  deriving DecidableEq

/-- The rating sentinel the scraper writes for every record (the source
has no rating source; its display layer suppresses exactly this value). -/
def unratedSentinel : Str := "N/A".toList

/-- The default genre sentinel of the heading-state extractor. -/
def generalGenre : Str := "General".toList

/-- Normalisation applied to each user-supplied genre string in
`filter_movies_by_genres`: `g.strip().lower().replace(" ", "")`. -/
def normQuery (q : Str) : Str := removeSpaces (lower (strip q))

/-- `filter_movies_by_genres(df, genres)`: normalise the queries, keep
every row whose lower-cased stored genre contains some normalised query
as a substring. -/
def filter_movies_by_genres (rows : List Movie) (qs : List Str) : List Movie :=
  let nqs := qs.map normQuery
  rows.filter (fun r => nqs.any (fun q => isSubstr q (lower r.genre)))

/-- Claim C3: on a cleaned store (stored genres invariant under
lower-casing), the genre filter selects exactly the records whose stored
genre contains at least one normalised query string as a substring (OR
semantics over the supplied genres). -/
theorem c3_genre_filter (rows : List Movie) (qs : List Str) (r : Movie)
    (hclean : ∀ x ∈ rows, lower x.genre = x.genre) :
    r ∈ filter_movies_by_genres rows qs ↔
      r ∈ rows ∧ ∃ q ∈ qs, isSubstr (normQuery q) r.genre = true := by
  unfold filter_movies_by_genres
  simp only [List.mem_filter, List.any_eq_true, List.mem_map]
  constructor
  · rintro ⟨hr, _, ⟨q, hq, rfl⟩, hsub⟩
    exact ⟨hr, q, hq, by rwa [hclean r hr] at hsub⟩
  · rintro ⟨hr, q, hq, hsub⟩
    exact ⟨hr, normQuery q, ⟨q, hq, rfl⟩, by rwa [hclean r hr]⟩

/-- A concrete cleaned store with genres action / actioncomedy / drama. -/
def dfC3 : List Movie :=
  [⟨"A".toList, "action".toList, "N/A".toList, "1999".toList⟩,
   ⟨"B".toList, "actioncomedy".toList, "N/A".toList, "2000".toList⟩,
   ⟨"C".toList, "drama".toList, "N/A".toList, "2001".toList⟩]

/-- Witness for C3: the query `["action"]` selects the `actioncomedy`
row by the substring semantics. -/
theorem c3_genre_filter_witness :
    (⟨"B".toList, "actioncomedy".toList, "N/A".toList, "2000".toList⟩ : Movie) ∈
      filter_movies_by_genres dfC3 ["action".toList] :=
  (c3_genre_filter dfC3 ["action".toList] _ (by decide)).mpr (by decide)

/-- Claim C10: filtering with an empty list of genre strings returns the
empty subset (the per-record existential over queries is vacuously
false). -/
theorem c10_filter_empty_queries (rows : List Movie) :
    filter_movies_by_genres rows [] = [] := by
  unfold filter_movies_by_genres
  simp

/-! ### Heading normalisation and the genre vocabulary (C1) -/

/-- `re.sub(r"\[.*?\]", "", s)` (fuelled scan): repeatedly drop the
leftmost `[`, its lazily matched contents, and the first following `]`.
The default-mode dot excludes the newline, so a `[` whose first `]`
lies beyond a `'\n'` (or is absent) matches nothing and is kept, while
later positions are still scanned for further matches. -/
def stripBracketsF : Nat → Str → Str
  | 0, cs => cs
  | _ + 1, [] => []
  | fuel + 1, c :: rest =>
    if c = '[' then
      match rest.drop (rest.takeWhile (fun d => d != ']' && d != '\n')).length with
      | ']' :: after => stripBracketsF fuel after
      | _ => c :: stripBracketsF fuel rest
    else c :: stripBracketsF fuel rest

/-- `re.sub(r"\[.*?\]", "", s)`. -/
def stripBrackets (cs : Str) : Str := stripBracketsF cs.length cs

/-- Length of a match of `\s*\(edit\)\s*` at the start of `cs`, if any
(greedy whitespace on both sides; `(` is not whitespace, so the leading
run is uniquely determined). -/
def editLen (cs : Str) : Option Nat :=
  let w := cs.takeWhile pyIsSpace
  let r := cs.drop w.length
  if ("(edit)".toList).isPrefixOf r then
    some (w.length + 6 + ((r.drop 6).takeWhile pyIsSpace).length)
  else none

/-- `re.sub(r"\s*\(edit\)\s*", "", s)` (fuelled left-to-right scan). -/
def stripEditF : Nat → Str → Str
  | 0, cs => cs
  | _ + 1, [] => []
  | fuel + 1, c :: rest =>
    match editLen (c :: rest) with
    | some n => stripEditF fuel ((c :: rest).drop n)
    | none => c :: stripEditF fuel rest

/-- `re.sub(r"\s*\(edit\)\s*", "", s)`. -/
def stripEdit (cs : Str) : Str := stripEditF cs.length cs

/-- Heading normalisation of the heading-state extractor:
`get_text().strip().lower()`, strip bracketed citation markers, strip an
`(edit)` marker, trimming after each step. -/
def cleanHeading (h : Str) : Str :=
  strip (stripEdit (strip (stripBrackets (lower (strip h)))))

/-- The genre keyword table, in the source's literal (insertion) order. -/
def genre_keywords : List (Str × Str) :=
  [("action".toList, "Action".toList),
   ("animation".toList, "Animation".toList),
   ("christmas".toList, "Christmas".toList),
   ("comedy".toList, "Comedy".toList),
   ("disaster".toList, "Disaster".toList),
   ("documentary".toList, "Documentary".toList),
   ("fantasy".toList, "Fantasy".toList),
   ("horror".toList, "Horror".toList),
   ("lgbt".toList, "LGBT".toList),
   ("musical".toList, "Musical".toList),
   ("romance".toList, "Romance".toList),
   ("science fiction".toList, "Science Fiction".toList),
   ("sci-fi".toList, "Science Fiction".toList),
   ("silent".toList, "Silent".toList),
   ("sports".toList, "Sports".toList),
   ("superhero".toList, "Superhero".toList),
   ("war".toList, "War".toList),
   ("western".toList, "Western".toList)]

/-- The `for keyword, genre_name in genre_keywords.items(): ... break`
loop: the first keyword occurring in the heading text wins. -/
def scanVocab : List (Str × Str) → Str → Option Str
  | [], _ => none
  | p :: rest, s => if isSubstr p.1 s then some p.2 else scanVocab rest s

/-- Processing one heading node: update `current_genre` on a vocabulary
hit, keep it unchanged otherwise. -/
def processHeading (h g : Str) : Str :=
  match scanVocab genre_keywords (cleanHeading h) with
  | some lbl => lbl
  | none => g

theorem scanVocab_eq_none (vc : List (Str × Str)) (s : Str)
    (h : ∀ p ∈ vc, isSubstr p.1 s = false) : scanVocab vc s = none := by
  induction vc with
  | nil => rfl
  | cons p rest ih =>
    have hp := h p (List.mem_cons_self p rest)
    simp only [scanVocab, hp]
    exact ih (fun q hq => h q (List.mem_cons_of_mem p hq))

theorem scanVocab_eq_at (vc : List (Str × Str)) (s : Str) :
    ∀ (i : Nat) (hi : i < vc.length),
      (∀ (j : Nat) (hj : j < i), isSubstr (vc.get ⟨j, Nat.lt_trans hj hi⟩).1 s = false) →
      isSubstr (vc.get ⟨i, hi⟩).1 s = true →
      scanVocab vc s = some (vc.get ⟨i, hi⟩).2 := by
  induction vc with
  | nil => intro i hi; exact absurd hi (Nat.not_lt_zero i)
  | cons p rest ih =>
    intro i hi hbefore hhit
    cases i with
    | zero => simp only [List.get] at hhit; simp [scanVocab, hhit]
    | succ i' =>
      have h0 : isSubstr p.1 s = false := hbefore 0 (Nat.succ_pos i')
      simp only [scanVocab, h0, List.get]
      simp only [List.get] at hhit
      exact ih i' (Nat.lt_of_succ_lt_succ hi)
        (fun j hj => hbefore (j + 1) (Nat.succ_lt_succ hj)) hhit

/-- Claim C1: the cleaned heading text is scanned against the genre
vocabulary in the fixed enumeration order; the first keyword occurring
as a substring sets the current genre to its label (so a heading with
several keywords resolves to the earliest one in the enumeration), and a
heading containing no keyword leaves the current genre unchanged.  The
last conjunct pins the newline corner of the normalisation: a bracket
group spanning a `'\n'` is not stripped (the default-mode dot excludes
newlines), so the heading `"[action\nz] fantasy films"` still contains
`action` and resolves to Action, not Fantasy. -/
theorem c1_vocab_scan (h g : Str) :
    (∀ (i : Nat) (hi : i < genre_keywords.length),
        (∀ (j : Nat) (hj : j < i),
          isSubstr (genre_keywords.get ⟨j, Nat.lt_trans hj hi⟩).1 (cleanHeading h) = false) →
        isSubstr (genre_keywords.get ⟨i, hi⟩).1 (cleanHeading h) = true →
        processHeading h g = (genre_keywords.get ⟨i, hi⟩).2) ∧
    ((∀ p ∈ genre_keywords, isSubstr p.1 (cleanHeading h) = false) →
        processHeading h g = g) ∧
    processHeading ("[action\nz] fantasy films".toList) g = ("Action".toList) := by
  refine ⟨?_, ?_, ?_⟩
  · intro i hi hbefore hhit
    unfold processHeading
    rw [scanVocab_eq_at genre_keywords (cleanHeading h) i hi hbefore hhit]
  · intro hnone
    unfold processHeading
    rw [scanVocab_eq_none genre_keywords (cleanHeading h) hnone]
  · unfold processHeading
    rw [show scanVocab genre_keywords (cleanHeading ("[action\nz] fantasy films".toList)) =
      some ("Action".toList) from by decide]

/-- Witness for C1: the heading `"Sci-Fi and Fantasy Films [edit]"`
resolves to the label of keyword 6 (`fantasy`), which precedes `sci-fi`
in the enumeration. -/
theorem c1_vocab_scan_witness :
    processHeading ("Sci-Fi and Fantasy Films [edit]".toList) generalGenre =
      (genre_keywords.get ⟨6, by decide⟩).2 :=
  (c1_vocab_scan ("Sci-Fi and Fantasy Films [edit]".toList) generalGenre).1 6
    (by decide) (by decide) (by decide)

/-! ### The record extractor `extract_movie_from_li` (C2) -/

/-- Head of the primary pattern's tail `\((\d{4})\)` applied after the
whitespace run: an opening parenthesis, exactly four digits, a closing
parenthesis (a fifth digit makes the close fail with no backtracking
possible). -/
def parenYear : Str → Option Str
  | '(' :: d1 :: d2 :: d3 :: d4 :: ')' :: _ =>
    if d1.isDigit && d2.isDigit && d3.isDigit && d4.isDigit then
      some [d1, d2, d3, d4]
    else none
  | _ => none

/-- Tail matcher for `^(.*?)\s+\((\d{4})\)`: does `\s+\((\d{4})\)` match
at the start of `cs`?  Every alternative for `\s+` must be followed by
`(`, which is not whitespace, so the greedy run is the unique choice. -/
def tyTail (cs : Str) : Option Str :=
  match cs with
  | [] => none
  | c :: _ => if pyIsSpace c then parenYear (cs.dropWhile pyIsSpace) else none

/-- Lazy scan of `^(.*?)` followed by the given tail matcher: try split
points left to right and return the stripped prefix plus the tail's
capture at the first success (`acc` holds the reversed prefix).  The
default-mode lazy dot cannot cross a newline, so the scan fails once a
`'\n'` would have to enter the captured group. -/
def scanFirst (tl : Str → Option Str) : Str → Str → Option (Str × Str)
  | acc, [] =>
    match tl [] with
    | some y => some (strip acc.reverse, y)
    | none => none
  | acc, c :: rest =>
    match tl (c :: rest) with
    | some y => some (strip acc.reverse, y)
    | none => if c = '\n' then none else scanFirst tl (c :: acc) rest

/-- Verb cues of the narrative-sentence pattern, in source order. -/
def verbCues : List Str := ["was", "is", "has been", "won", "received"].map (fun s => s.toList)

/-- Does `(?:\s+was|\s+is|\s+has been|\s+won|\s+received)` match at the
start of `cs`?  All cues begin with a non-whitespace character, so the
`\s+` run is uniquely determined; there is no trailing word boundary. -/
def narrTail (cs : Str) : Bool :=
  match cs with
  | [] => false
  | c :: _ =>
    pyIsSpace c && verbCues.any (fun w => w.isPrefixOf (cs.dropWhile pyIsSpace))

/-- Lazy scan of `^([^.!?]+?)` followed by the verb-cue alternation:
return the raw captured group at the first split point that works; a
sentence terminator ends the scan with no match possible. -/
def scanNarr : Str → Str → Option Str
  | _, [] => none
  | acc, c :: rest =>
    if c = '.' ∨ c = '!' ∨ c = '?' then none
    else if narrTail rest then some (c :: acc).reverse
    else scanNarr (c :: acc) rest

/-- Length of a match of `\s*\([^)]*\)\s*` at the start of `cs`
(greedy inner run up to the first `)`, greedy whitespace on both
sides). -/
def asideLen (cs : Str) : Option Nat :=
  match cs.dropWhile pyIsSpace with
  | '(' :: rest =>
    match rest.dropWhile (fun d => d != ')') with
    | ')' :: after =>
      some ((cs.takeWhile pyIsSpace).length + 1 +
        (rest.takeWhile (fun d => d != ')')).length + 1 +
        (after.takeWhile pyIsSpace).length)
    | _ => none
  | _ => none

/-- `re.sub(r"\s*\([^)]*\)\s*", " ", s)` (fuelled left-to-right scan):
replace every parenthetical aside, with surrounding whitespace, by one
space character. -/
def stripAsidesF : Nat → Str → Str
  | 0, cs => cs
  | _ + 1, [] => []
  | fuel + 1, c :: rest =>
    match asideLen (c :: rest) with
    | some n => ' ' :: stripAsidesF fuel ((c :: rest).drop n)
    | none => c :: stripAsidesF fuel rest

/-- `re.sub(r"\s*\([^)]*\)\s*", " ", s)`. -/
def stripAsides (cs : Str) : Str := stripAsidesF cs.length cs

/-- `\w` (ASCII model): letters, digits, underscore. -/
def isWordChar (c : Char) : Bool := c.isAlphanum || c = '_'

/-- Word-boundary test against an optional neighbouring character
(`none` = string edge). -/
def boundaryOk : Option Char → Bool
  | none => true
  | some c => !(isWordChar c)

/-- Does `\b(19|20)\d{2}\b` match at the current position, `prev` being
the character just before it (`none` at the string start)? -/
def yearHere (prev : Option Char) (cs : Str) : Option Str :=
  match cs with
  | d1 :: d2 :: d3 :: d4 :: rest =>
    if boundaryOk prev &&
        ((d1 == '1' && d2 == '9') || (d1 == '2' && d2 == '0')) &&
        d3.isDigit && d4.isDigit && boundaryOk rest.head? then
      some [d1, d2, d3, d4]
    else none
  | _ => none

/-- Scanning loop of `re.search(r"\b(19|20)\d{2}\b", text)`. -/
def searchYearGo : Option Char → Str → Str
  | _, [] => []
  | prev, c :: rest =>
    match yearHere prev (c :: rest) with
    | some y => y
    | none => searchYearGo (some c) rest

/-- `re.search(r"\b(19|20)\d{2}\b", text)`: the matched token of the
leftmost match, or `[]` (the source uses `""`) when there is none. -/
def searchYear (cs : Str) : Str := searchYearGo none cs

/-- `extract_movie_from_li(li, genre)` on the item's flattened text:
primary `Title (YYYY)` pattern, then the narrative-sentence pattern with
aside-stripping, length gate and document-wide year search, else no
match. -/
def extract_movie_from_li (text genre : Str) : Option Movie :=
  match scanFirst tyTail [] text with
  | some (t, y) => some ⟨t, genre, unratedSentinel, y⟩
  | none =>
    match scanNarr [] text with
    | some gr =>
      let t := strip (stripAsides (strip gr))
      if 2 < t.length then some ⟨t, genre, unratedSentinel, searchYear text⟩
      else none
    | none => none

theorem dropWhile_eq_of_all (p : Char → Bool) (ws : Str) (x : Char) (r : Str)
    (h1 : ∀ c ∈ ws, p c = true) (h2 : p x = false) :
    (ws ++ x :: r).dropWhile p = x :: r := by
  induction ws with
  | nil => simp [List.dropWhile_cons, h2]
  | cons a ws ih =>
    have ha := h1 a (List.mem_cons_self a ws)
    simp [List.dropWhile_cons, ha, ih (fun c hc => h1 c (List.mem_cons_of_mem a hc))]

theorem parenYear_eq_some_iff (v y : Str) :
    parenYear v = some y ↔
      ∃ d1 d2 d3 d4 rest, v = '(' :: d1 :: d2 :: d3 :: d4 :: ')' :: rest ∧
        (d1.isDigit && d2.isDigit && d3.isDigit && d4.isDigit) = true ∧
        y = [d1, d2, d3, d4] := by
  constructor
  · intro h
    unfold parenYear at h
    split at h
    · rename_i d1 d2 d3 d4 rest
      split at h
      · rename_i hd
        exact ⟨d1, d2, d3, d4, rest, rfl, hd, (Option.some.inj h).symm⟩
      · cases h
    · cases h
  · rintro ⟨d1, d2, d3, d4, rest, rfl, hd, rfl⟩
    simp [parenYear, hd]

theorem tyTail_eq_some_iff (cs y : Str) :
    tyTail cs = some y ↔
      ∃ ws d1 d2 d3 d4 rest,
        cs = ws ++ '(' :: d1 :: d2 :: d3 :: d4 :: ')' :: rest ∧ ws ≠ [] ∧
        (∀ c ∈ ws, pyIsSpace c = true) ∧
        (d1.isDigit && d2.isDigit && d3.isDigit && d4.isDigit) = true ∧
        y = [d1, d2, d3, d4] := by
  constructor
  · intro h
    unfold tyTail at h
    split at h
    · cases h
    · rename_i c rest0
      split at h
      · rename_i hc
        rcases (parenYear_eq_some_iff _ y).mp h with
          ⟨d1, d2, d3, d4, rest, hdw, hd, hy⟩
        refine ⟨(c :: rest0).takeWhile pyIsSpace, d1, d2, d3, d4, rest, ?_, ?_, ?_, hd, hy⟩
        · rw [← hdw]; exact (List.takeWhile_append_dropWhile pyIsSpace (c :: rest0)).symm
        · simp [List.takeWhile_cons, hc]
        · intro a ha; exact List.mem_takeWhile_imp ha
      · cases h
  · rintro ⟨ws, d1, d2, d3, d4, rest, rfl, hne, hws, hd, rfl⟩
    rcases ws with _ | ⟨w0, ws'⟩
    · exact absurd rfl hne
    · have hw0 : pyIsSpace w0 = true := hws w0 (List.mem_cons_self w0 ws')
      have hdw :
          ((w0 :: ws') ++ '(' :: d1 :: d2 :: d3 :: d4 :: ')' :: rest).dropWhile pyIsSpace =
            '(' :: d1 :: d2 :: d3 :: d4 :: ')' :: rest :=
        dropWhile_eq_of_all pyIsSpace (w0 :: ws') '(' _ hws (by decide)
      simp only [tyTail, List.cons_append, hw0, if_true]
      rw [show ((w0 :: (ws' ++ '(' :: d1 :: d2 :: d3 :: d4 :: ')' :: rest)).dropWhile pyIsSpace) =
            '(' :: d1 :: d2 :: d3 :: d4 :: ')' :: rest from by
        simpa using hdw]
      simp [parenYear, hd]

theorem scanFirst_go_some (tl : Str → Option Str) :
    ∀ (cs acc : Str) (k : Nat) (y : Str), k ≤ cs.length →
      (∀ ch ∈ cs.take k, ch ≠ '\n') →
      (∀ u, u < k → tl (cs.drop u) = none) →
      tl (cs.drop k) = some y →
      scanFirst tl acc cs = some (strip (acc.reverse ++ cs.take k), y) := by
  intro cs
  induction cs with
  | nil =>
    intro acc k y hk _ hmin hhit
    have hk0 : k = 0 := Nat.le_zero.mp hk
    subst hk0
    simp only [List.drop_nil] at hhit
    simp [scanFirst, hhit]
  | cons c rest ih =>
    intro acc k y hk hnl hmin hhit
    cases k with
    | zero =>
      simp only [List.drop] at hhit
      simp [scanFirst, hhit]
    | succ k' =>
      have h0 : tl (c :: rest) = none := by simpa using hmin 0 (Nat.succ_pos k')
      have hc : c ≠ '\n' :=
        hnl c (by rw [List.take_succ_cons]; exact List.mem_cons_self _ _)
      simp only [scanFirst, h0]
      rw [if_neg hc]
      rw [ih (c :: acc) k' y (Nat.le_of_succ_le_succ hk)
        (fun ch hch =>
          hnl ch (by rw [List.take_succ_cons]; exact List.mem_cons_of_mem _ hch))
        (fun u hu => by simpa using hmin (u + 1) (Nat.succ_lt_succ hu))
        (by simpa using hhit)]
      simp [List.reverse_cons, List.append_assoc, List.take_succ_cons]

theorem scanFirst_go_none (tl : Str → Option Str) :
    ∀ (cs acc : Str),
      (∀ u, u ≤ cs.length → (∀ ch ∈ cs.take u, ch ≠ '\n') → tl (cs.drop u) = none) →
      scanFirst tl acc cs = none := by
  intro cs
  induction cs with
  | nil =>
    intro acc h
    have h0 := h 0 (Nat.le_refl 0) (by intro ch hch; cases hch)
    simp only [List.drop_nil] at h0
    simp [scanFirst, h0]
  | cons c rest ih =>
    intro acc h
    have h0 : tl (c :: rest) = none := by
      simpa using h 0 (Nat.zero_le _) (by intro ch hch; simp at hch)
    simp only [scanFirst, h0]
    by_cases hc : c = '\n'
    · rw [if_pos hc]
    · rw [if_neg hc]
      refine ih (c :: acc) ?_
      intro u hu hnl
      have harg : ∀ ch ∈ (c :: rest).take (u + 1), ch ≠ '\n' := by
        intro ch hch
        rw [List.take_succ_cons] at hch
        rcases List.mem_cons.mp hch with rfl | hch'
        · exact hc
        · exact hnl ch hch'
      have := h (u + 1) (Nat.succ_le_succ hu) harg
      simpa using this

theorem yearHere_eq_some_iff (prev : Option Char) (cs y : Str) :
    yearHere prev cs = some y ↔
      ∃ d1 d2 d3 d4 rest, cs = d1 :: d2 :: d3 :: d4 :: rest ∧
        (boundaryOk prev && ((d1 == '1' && d2 == '9') || (d1 == '2' && d2 == '0')) &&
          d3.isDigit && d4.isDigit && boundaryOk rest.head?) = true ∧
        y = [d1, d2, d3, d4] := by
  constructor
  · intro h
    unfold yearHere at h
    split at h
    · rename_i d1 d2 d3 d4 rest
      split at h
      · rename_i hb
        exact ⟨d1, d2, d3, d4, rest, rfl, hb, (Option.some.inj h).symm⟩
      · cases h
    · cases h
  · rintro ⟨d1, d2, d3, d4, rest, rfl, hb, rfl⟩
    simp [yearHere, hb]

theorem yearHere_ne_nil (prev : Option Char) (cs y : Str)
    (h : yearHere prev cs = some y) : y ≠ [] := by
  rcases (yearHere_eq_some_iff prev cs y).mp h with ⟨d1, _, _, _, _, _, _, rfl⟩
  simp

theorem searchYearGo_sound : ∀ (cs : Str) (prev : Option Char),
    searchYearGo prev cs ≠ [] →
    ∃ pre d1 d2 d3 d4 post,
      cs = pre ++ d1 :: d2 :: d3 :: d4 :: post ∧
      ((d1 == '1' && d2 == '9') || (d1 == '2' && d2 == '0')) = true ∧
      d3.isDigit = true ∧ d4.isDigit = true ∧
      boundaryOk (if pre = [] then prev else pre.getLast?) = true ∧
      boundaryOk post.head? = true ∧
      searchYearGo prev cs = [d1, d2, d3, d4] := by
  intro cs
  induction cs with
  | nil => intro prev h; exact absurd rfl h
  | cons c rest ih =>
    intro prev h
    rcases hyh : yearHere prev (c :: rest) with _ | y'
    · have hrec : searchYearGo prev (c :: rest) = searchYearGo (some c) rest := by
        simp [searchYearGo, hyh]
      rw [hrec] at h
      rcases ih (some c) h with ⟨pre', d1, d2, d3, d4, post, hdec, h19, h3, h4, hbl, hbr, hval⟩
      refine ⟨c :: pre', d1, d2, d3, d4, post, by simp [hdec], h19, h3, h4, ?_, hbr, ?_⟩
      · rcases pre' with _ | ⟨p0, pre''⟩
        · simpa using hbl
        · simpa [List.getLast?_cons_cons] using hbl
      · rw [hrec]; exact hval
    · rcases (yearHere_eq_some_iff prev (c :: rest) y').mp hyh with
        ⟨d1, d2, d3, d4, rest', hdec, hb, rfl⟩
      have hb' := hb
      simp only [Bool.and_eq_true, Bool.or_eq_true] at hb'
      refine ⟨[], d1, d2, d3, d4, rest', by simpa using hdec, ?_, ?_, ?_, ?_, ?_, ?_⟩
      · rcases hb' with ⟨⟨⟨⟨_, h19⟩, _⟩, _⟩, _⟩
        simpa [Bool.or_eq_true] using h19
      · exact hb'.1.1.2
      · exact hb'.1.2
      · simpa using hb'.1.1.1.1
      · exact hb'.2
      · simp [searchYearGo, hyh]

theorem searchYearGo_complete : ∀ (pre : Str) (prev : Option Char)
    (d1 d2 d3 d4 : Char) (post : Str),
    ((d1 == '1' && d2 == '9') || (d1 == '2' && d2 == '0')) = true →
    d3.isDigit = true → d4.isDigit = true →
    boundaryOk (if pre = [] then prev else pre.getLast?) = true →
    boundaryOk post.head? = true →
    searchYearGo prev (pre ++ d1 :: d2 :: d3 :: d4 :: post) ≠ [] := by
  intro pre
  induction pre with
  | nil =>
    intro prev d1 d2 d3 d4 post h19 h3 h4 hbl hbr
    have hbl' : boundaryOk prev = true := by simpa using hbl
    have hyh : yearHere prev (d1 :: d2 :: d3 :: d4 :: post) = some [d1, d2, d3, d4] := by
      simp [yearHere, hbl', h19, h3, h4, hbr]
    simp [searchYearGo, hyh]
  | cons c pre' ih =>
    intro prev d1 d2 d3 d4 post h19 h3 h4 hbl hbr
    have hbl' : boundaryOk (if pre' = [] then some c else pre'.getLast?) = true := by
      rcases pre' with _ | ⟨p0, pre''⟩
      · simpa using hbl
      · simpa [List.getLast?_cons_cons] using hbl
    rcases hyh : yearHere prev (c :: (pre' ++ d1 :: d2 :: d3 :: d4 :: post)) with _ | y'
    · have : searchYearGo prev (c :: (pre' ++ d1 :: d2 :: d3 :: d4 :: post)) =
          searchYearGo (some c) (pre' ++ d1 :: d2 :: d3 :: d4 :: post) := by
        simp [searchYearGo, hyh]
      intro hcon
      exact ih (some c) d1 d2 d3 d4 post h19 h3 h4 hbl' hbr (by
        rw [← this]; simpa using hcon)
    · have hne := yearHere_ne_nil prev _ y' hyh
      intro hcon
      simp only [List.cons_append] at hcon
      rw [show searchYearGo prev (c :: (pre' ++ d1 :: d2 :: d3 :: d4 :: post)) = y' from by
        simp [searchYearGo, hyh]] at hcon
      exact hne hcon

/-- Claim C2: the record extractor applies two ordered attempts with the
first success winning.  (A) characterises the primary tail pattern
`\s+\((\d{4})\)`; (B) if some minimal split point inside the leading
newline-free segment (the default-mode lazy dot cannot cross `'\n'`)
makes the primary pattern `Title (YYYY)` match, the record is the
trimmed prefix, the given genre, the unrated sentinel and the four
digits; (C) otherwise a narrative-sentence match yields the
aside-stripped clause as title — accepted only when longer than 2
characters — with a year searched in the whole item text; (D) otherwise
no match is returned (not an error); the year search is characterised
by soundness/completeness conjuncts, the primary pattern refuses a
title spanning a newline, and the Pulp Fiction scenario closes the
claim. -/
theorem c2_record_extractor (text genre : Str) :
    (∀ cs y, tyTail cs = some y ↔
      ∃ ws d1 d2 d3 d4 rest,
        cs = ws ++ '(' :: d1 :: d2 :: d3 :: d4 :: ')' :: rest ∧ ws ≠ [] ∧
        (∀ c ∈ ws, pyIsSpace c = true) ∧
        (d1.isDigit && d2.isDigit && d3.isDigit && d4.isDigit) = true ∧
        y = [d1, d2, d3, d4]) ∧
    (∀ k y, k ≤ text.length →
      (∀ ch ∈ text.take k, ch ≠ '\n') →
      (∀ u, u < k → tyTail (text.drop u) = none) →
      tyTail (text.drop k) = some y →
      extract_movie_from_li text genre =
        some ⟨strip (text.take k), genre, unratedSentinel, y⟩) ∧
    ((∀ u, u ≤ text.length → (∀ ch ∈ text.take u, ch ≠ '\n') →
        tyTail (text.drop u) = none) →
      ∀ gr, scanNarr [] text = some gr →
        ((2 < (strip (stripAsides (strip gr))).length →
          extract_movie_from_li text genre =
            some ⟨strip (stripAsides (strip gr)), genre, unratedSentinel, searchYear text⟩) ∧
         ((strip (stripAsides (strip gr))).length ≤ 2 →
          extract_movie_from_li text genre = none))) ∧
    ((∀ u, u ≤ text.length → (∀ ch ∈ text.take u, ch ≠ '\n') →
        tyTail (text.drop u) = none) →
      scanNarr [] text = none → extract_movie_from_li text genre = none) ∧
    (searchYear text ≠ [] →
      ∃ pre d1 d2 d3 d4 post,
        text = pre ++ d1 :: d2 :: d3 :: d4 :: post ∧
        ((d1 == '1' && d2 == '9') || (d1 == '2' && d2 == '0')) = true ∧
        d3.isDigit = true ∧ d4.isDigit = true ∧
        boundaryOk pre.getLast? = true ∧ boundaryOk post.head? = true ∧
        searchYear text = [d1, d2, d3, d4]) ∧
    (∀ pre d1 d2 d3 d4 post,
      text = pre ++ d1 :: d2 :: d3 :: d4 :: post →
      ((d1 == '1' && d2 == '9') || (d1 == '2' && d2 == '0')) = true →
      d3.isDigit = true → d4.isDigit = true →
      boundaryOk pre.getLast? = true → boundaryOk post.head? = true →
      searchYear text ≠ []) ∧
    extract_movie_from_li ("AB\nCD (1999)".toList) genre = none ∧
    extract_movie_from_li ("Pulp Fiction (1994)".toList) ("Crime".toList) =
      some ⟨"Pulp Fiction".toList, "Crime".toList, unratedSentinel, "1994".toList⟩ := by
  refine ⟨tyTail_eq_some_iff, ?_, ?_, ?_, ?_, ?_, ?_, by decide⟩
  · intro k y hk hnl hmin hhit
    unfold extract_movie_from_li
    rw [scanFirst_go_some tyTail text [] k y hk hnl hmin hhit]
    simp
  · intro hnone gr hgr
    have hsf : scanFirst tyTail [] text = none := scanFirst_go_none tyTail text [] hnone
    constructor
    · intro hlen
      unfold extract_movie_from_li
      rw [hsf, hgr]
      simp only [if_pos hlen]
    · intro hlen
      unfold extract_movie_from_li
      rw [hsf, hgr]
      simp only [if_neg (by omega : ¬ 2 < (strip (stripAsides (strip gr))).length)]
  · intro hnone hnn
    have hsf : scanFirst tyTail [] text = none := scanFirst_go_none tyTail text [] hnone
    unfold extract_movie_from_li
    rw [hsf, hnn]
  · intro h
    rcases searchYearGo_sound text none h with
      ⟨pre, d1, d2, d3, d4, post, hdec, h19, h3, h4, hbl, hbr, hval⟩
    refine ⟨pre, d1, d2, d3, d4, post, hdec, h19, h3, h4, ?_, hbr, hval⟩
    rcases pre with _ | ⟨p0, pre'⟩
    · simpa using hbl
    · simpa using hbl
  · intro pre d1 d2 d3 d4 post hdec h19 h3 h4 hbl hbr
    subst hdec
    refine searchYearGo_complete pre none d1 d2 d3 d4 post h19 h3 h4 ?_ hbr
    rcases pre with _ | ⟨p0, pre'⟩
    · decide
    · simpa using hbl
  · have h1 : scanFirst tyTail [] ("AB\nCD (1999)".toList) = none := by decide
    have h2 : scanNarr [] ("AB\nCD (1999)".toList) = none := by decide
    unfold extract_movie_from_li
    rw [h1, h2]

/-- Witness for C2, the Pulp Fiction scenario through conjunct (B): the
primary pattern first succeeds at split point 12, producing the record
("Pulp Fiction", "Crime", unrated sentinel, "1994"). -/
theorem c2_record_extractor_witness :
    extract_movie_from_li ("Pulp Fiction (1994)".toList) ("Crime".toList) =
      some ⟨strip (("Pulp Fiction (1994)".toList).take 12), "Crime".toList,
        unratedSentinel, "1994".toList⟩ :=
  (c2_record_extractor ("Pulp Fiction (1994)".toList) ("Crime".toList)).2.1 12
    ("1994".toList) (by decide) (by decide) (by decide) (by decide)

/-! ### The heading-state extractor (C9) -/

/-- A node of the flattened `soup.find_all(["h2", "h3", "h4", "ul"])`
stream: a heading's text, or a list node's item texts. -/
inductive Element where
  | heading (text : Str)
  | ulist (items : List Str)
  deriving DecidableEq

/-- The sequential loop of `scrape_wikipedia_best_movies`: track
`current_genre` across headings, and emit one record per matching list
item only while the tracked genre differs from the default sentinel. -/
def runExtractor : List Element → Str → List Movie → List Movie
  | [], _, acc => acc
  | Element.heading h :: rest, g, acc => runExtractor rest (processHeading h g) acc
  | Element.ulist items :: rest, g, acc =>
    if g = generalGenre then runExtractor rest g acc
    else runExtractor rest g (acc ++ items.filterMap (fun t => extract_movie_from_li t g))

/-- The raw record list produced by the heading-state pass. -/
def scrape_heading_state (elems : List Element) : List Movie :=
  runExtractor elems generalGenre []

theorem extract_movie_genre (t g : Str) (m : Movie)
    (h : extract_movie_from_li t g = some m) : m.genre = g := by
  unfold extract_movie_from_li at h
  rcases hsf : scanFirst tyTail [] t with _ | ⟨t', y'⟩
  · rw [hsf] at h
    rcases hsn : scanNarr [] t with _ | gr
    · rw [hsn] at h; cases h
    · rw [hsn] at h
      simp only at h
      split at h
      · cases h; rfl
      · cases h
  · rw [hsf] at h
    simp only at h
    cases h
    rfl

theorem runExtractor_genres : ∀ (elems : List Element) (g : Str) (acc : List Movie) (m : Movie),
    m ∈ runExtractor elems g acc → m ∈ acc ∨ m.genre ≠ generalGenre := by
  intro elems
  induction elems with
  | nil => intro g acc m h; exact Or.inl h
  | cons e rest ih =>
    intro g acc m h
    cases e with
    | heading t => exact ih _ acc m h
    | ulist items =>
      by_cases hg : g = generalGenre
      · rw [runExtractor, if_pos hg] at h
        exact ih g acc m h
      · rw [runExtractor, if_neg hg] at h
        rcases ih g _ m h with hin | hng
        · rcases List.mem_append.mp hin with h1 | h2
          · exact Or.inl h1
          · rcases List.mem_filterMap.mp h2 with ⟨t, _, hext⟩
            exact Or.inr (by rw [extract_movie_genre t g m hext]; exact hg)
        · exact Or.inr hng

/-- Claim C9: every record produced by the heading-state extractor
carries a genre different from the default sentinel "General"; list
items seen while `current_genre` still holds the sentinel contribute no
records, so only fallback records may carry the generic label. -/
theorem c9_no_general_records (elems : List Element) (m : Movie)
    (h : m ∈ scrape_heading_state elems) : m.genre ≠ generalGenre := by
  rcases runExtractor_genres elems generalGenre [] m h with hin | hng
  · cases hin
  · exact hng

/-- A document stream: a pre-heading list (contributing nothing), a
horror heading, a list with one extractable item. -/
def elemsC9 : List Element :=
  [Element.ulist [("Contents".toList)],
   Element.heading ("Horror films [edit]".toList),
   Element.ulist [("Alien (1979)".toList)]]

/-- Witness for C9 on a concrete document stream. -/
theorem c9_no_general_records_witness :
    (⟨"Alien".toList, "Horror".toList, "N/A".toList, "1979".toList⟩ : Movie).genre ≠
      generalGenre :=
  c9_no_general_records elemsC9 _ (by decide)

/-! ### The fallback general extractor (C7) -/

/-- Tail matcher for `^(.*?)\s*-\s*(\d{4})`: optional whitespace, a
dash, optional whitespace, four digits (the dash and the first digit
are not whitespace, so both greedy runs are uniquely determined). -/
def dashTail (cs : Str) : Option Str :=
  match cs.dropWhile pyIsSpace with
  | '-' :: rest =>
    match rest.dropWhile pyIsSpace with
    | d1 :: d2 :: d3 :: d4 :: _ =>
      if d1.isDigit && d2.isDigit && d3.isDigit && d4.isDigit then
        some [d1, d2, d3, d4]
      else none
    | _ => none
  | _ => none

/-- Tail matcher for `^(.*?),\s*(\d{4})`: a comma, optional whitespace,
four digits. -/
def commaTail (cs : Str) : Option Str :=
  match cs with
  | ',' :: rest =>
    match rest.dropWhile pyIsSpace with
    | d1 :: d2 :: d3 :: d4 :: _ =>
      if d1.isDigit && d2.isDigit && d3.isDigit && d4.isDigit then
        some [d1, d2, d3, d4]
      else none
    | _ => none
  | _ => none

/-- The structural-word stoplist of the fallback extractor. -/
def stopWords : List Str := ["list", "category", "section", "see also"].map (fun s => s.toList)

/-- The fallback rejection heuristic: title shorter than 3 characters,
or lower-cased title containing a stoplist word. -/
def rejectGenTitle (t : Str) : Bool :=
  decide (t.length < 3) || stopWords.any (fun w => isSubstr w (lower t))

/-- Whether a pattern yields no accepted candidate on `text` (no match,
or a match whose title the heuristic rejects): under the source's
`continue`, such a pattern falls through to the next one. -/
def patFails (p : Str → Option (Str × Str)) (text : Str) : Bool :=
  match p text with
  | none => true
  | some (t, _) => rejectGenTitle t

/-- The three fallback patterns, in source order:
`Title (Year)`, `Title - Year`, `Title, Year`. -/
def general_patterns : List (Str → Option (Str × Str)) :=
  [fun cs => scanFirst tyTail [] cs,
   fun cs => scanFirst dashTail [] cs,
   fun cs => scanFirst commaTail [] cs]

/-- The `for pattern in patterns: ... continue ... break` loop of
`scrape_general_movies`, for one list item. -/
def tryPatterns : List (Str → Option (Str × Str)) → Str → Option Movie
  | [], _ => none
  | p :: ps, text =>
    match p text with
    | some (t, y) =>
      if rejectGenTitle t then tryPatterns ps text
      else some ⟨t, generalGenre, unratedSentinel, y⟩
    | none => tryPatterns ps text

/-- The fallback extraction for one list item. -/
def extract_general_item (text : Str) : Option Movie :=
  tryPatterns general_patterns text

/-- Movie-level `(Title, Year)` dedup (`drop_duplicates`, keep first). -/
def dedupMovies : List Movie → List (Str × Str) → List Movie
  | [], _ => []
  | m :: rest, seen =>
    if (m.title, m.year) ∈ seen then dedupMovies rest seen
    else m :: dedupMovies rest ((m.title, m.year) :: seen)

/-- `scrape_general_movies`: extract from every list item, report
failure (`None`) on zero records, otherwise dedupe and return them. -/
def scrape_general_movies (lis : List Str) : Option (List Movie) :=
  if lis.filterMap extract_general_item = [] then none
  else some (dedupMovies (lis.filterMap extract_general_item) [])

theorem tryPatterns_eq_none (text : Str) :
    ∀ ps : List (Str → Option (Str × Str)),
      (∀ p ∈ ps, patFails p text = true) → tryPatterns ps text = none := by
  intro ps
  induction ps with
  | nil => intro _; rfl
  | cons p ps ih =>
    intro h
    have hp := h p (List.mem_cons_self p ps)
    unfold patFails at hp
    rcases hpt : p text with _ | ⟨t, y⟩
    · rw [hpt] at hp
      simp only [tryPatterns, hpt]
      exact ih (fun q hq => h q (List.mem_cons_of_mem p hq))
    · rw [hpt] at hp
      simp only at hp
      simp only [tryPatterns, hpt, hp, if_true]
      exact ih (fun q hq => h q (List.mem_cons_of_mem p hq))

theorem tryPatterns_eq_at (text : Str) : ∀ (ps : List (Str → Option (Str × Str)))
    (i : Nat) (hi : i < ps.length) (t y : Str),
    (∀ (j : Nat) (hj : j < i), patFails (ps.get ⟨j, Nat.lt_trans hj hi⟩) text = true) →
    (ps.get ⟨i, hi⟩) text = some (t, y) → rejectGenTitle t = false →
    tryPatterns ps text = some ⟨t, generalGenre, unratedSentinel, y⟩ := by
  intro ps
  induction ps with
  | nil => intro i hi; exact absurd hi (Nat.not_lt_zero i)
  | cons p ps ih =>
    intro i hi t y hbefore hhit hrej
    cases i with
    | zero =>
      simp only [List.get] at hhit
      simp only [tryPatterns, hhit, hrej]
      simp
    | succ i' =>
      have h0 := hbefore 0 (Nat.succ_pos i')
      simp only [List.get] at h0
      unfold patFails at h0
      simp only [List.get] at hhit
      rcases hpt : p text with _ | ⟨t0, y0⟩
      · simp only [tryPatterns, hpt]
        exact ih i' (Nat.lt_of_succ_lt_succ hi) t y
          (fun j hj => hbefore (j + 1) (Nat.succ_lt_succ hj)) hhit hrej
      · rw [hpt] at h0
        simp only at h0
        simp only [tryPatterns, hpt, h0, if_true]
        exact ih i' (Nat.lt_of_succ_lt_succ hi) t y
          (fun j hj => hbefore (j + 1) (Nat.succ_lt_succ hj)) hhit hrej

/-- Claim C7 (amended): for each processed list item the three fallback
patterns are applied in order and the first *accepted* match wins: a
pattern whose candidate is rejected (title shorter than 3 characters or
containing a stoplist word) falls through to the next pattern rather
than discarding the item; the item yields no record only when every
pattern fails or is rejected; and a fallback pass with zero surviving
records reports failure rather than an empty success.  The last
conjunct pins the newline corner of the pattern scanners: the lazy
title group of all three patterns cannot cross a `'\n'`, so
`"AB\nCD (1999)"` yields no fallback record. -/
theorem c7_fallback_patterns (lis : List Str) (text : Str) :
    (∀ (i : Nat) (hi : i < general_patterns.length) (t y : Str),
      (∀ (j : Nat) (hj : j < i),
        patFails (general_patterns.get ⟨j, Nat.lt_trans hj hi⟩) text = true) →
      (general_patterns.get ⟨i, hi⟩) text = some (t, y) →
      rejectGenTitle t = false →
      extract_general_item text = some ⟨t, generalGenre, unratedSentinel, y⟩) ∧
    ((∀ p ∈ general_patterns, patFails p text = true) →
      extract_general_item text = none) ∧
    (scrape_general_movies lis = none ↔ ∀ t ∈ lis, extract_general_item t = none) ∧
    extract_general_item ("AB\nCD (1999)".toList) = none := by
  refine ⟨?_, ?_, ?_, by decide⟩
  · intro i hi t y hbefore hhit hrej
    exact tryPatterns_eq_at text general_patterns i hi t y hbefore hhit hrej
  · intro h
    exact tryPatterns_eq_none text general_patterns h
  · unfold scrape_general_movies
    by_cases hms : lis.filterMap extract_general_item = []
    · rw [if_pos hms]
      constructor
      · intro _; exact List.filterMap_eq_nil_iff.mp hms
      · intro _; rfl
    · rw [if_neg hms]
      constructor
      · intro h; cases h
      · intro h; exact absurd (List.filterMap_eq_nil_iff.mpr h) hms

/-- Counterexample to C7 as stated: on the item `"AB (1999), 2000"` the
first pattern matches with candidate title "AB", which is rejected as
too short — yet the item is not discarded: `continue` moves on to the
`Title, Year` pattern, which produces the record
("AB (1999)", General, N/A, "2000"). -/
theorem c7_fallback_counterexample :
    scanFirst tyTail [] ("AB (1999), 2000".toList) =
        some ("AB".toList, "1999".toList) ∧
    rejectGenTitle ("AB".toList) = true ∧
    extract_general_item ("AB (1999), 2000".toList) =
      some ⟨"AB (1999)".toList, generalGenre, unratedSentinel, "2000".toList⟩ := by
  refine ⟨by decide, by decide, by decide⟩

/-- Witness for the amended C7: the third pattern's accepted candidate
wins on `"AB (1999), 2000"` after the first is rejected and the second
fails. -/
theorem c7_fallback_patterns_witness :
    extract_general_item ("AB (1999), 2000".toList) =
      some ⟨"AB (1999)".toList, generalGenre, unratedSentinel, "2000".toList⟩ :=
  (c7_fallback_patterns [] ("AB (1999), 2000".toList)).1 2 (by decide)
    ("AB (1999)".toList) ("2000".toList) (by decide) (by decide) (by decide)

/-! ### The record-store load (C5, C6) -/

/-- A persisted CSV row after parsing: each of the four fields present
or missing (pandas `NaN`; `read_csv` parses an empty field as missing). -/
structure RawRow where
  title : Option Str
  genre : Option Str
  rating : Option Str
  year : Option Str
  deriving DecidableEq

/-- `dropna(subset=["Title", "Genre"])` row predicate. -/
def hasTitleGenre (r : RawRow) : Bool := r.title.isSome && r.genre.isSome

/-- Genre normalisation of the load:
`df["Genre"].str.lower().str.replace(" ", "")`. -/
def normGenreRow (r : RawRow) : RawRow :=
  { r with genre := r.genre.map (fun g => removeSpaces (lower g)) }

/-- The `(Title, Year)` key of `drop_duplicates` (pandas treats two
missing values as equal duplicates here, as `Option` equality does). -/
def rowKey (r : RawRow) : Option Str × Option Str := (r.title, r.year)

/-- `drop_duplicates(subset=["Title", "Year"])`, keep first. -/
def dedupRows : List RawRow → List (Option Str × Option Str) → List RawRow
  | [], _ => []
  | r :: rest, seen =>
    if rowKey r ∈ seen then dedupRows rest seen
    else r :: dedupRows rest (rowKey r :: seen)

/-- The cleaning pipeline of `load_and_clean_movies`, in source order:
drop rows with missing title or genre, normalise the genre, dedupe on
`(Title, Year)` keeping the first occurrence. -/
def cleanRows (rows : List RawRow) : List RawRow :=
  dedupRows ((rows.filter hasTitleGenre).map normGenreRow) []

/-- `load_and_clean_movies`: the input is `none` for a missing or
unreadable CSV; a non-missing input is checked for emptiness *before*
cleaning, and the cleaned rows are returned otherwise. -/
def load_and_clean_movies : Option (List RawRow) → Option (List RawRow)
  | none => none
  | some rows => if rows = [] then none else some (cleanRows rows)

theorem dedupRows_sublist : ∀ (l : List RawRow) (seen : List (Option Str × Option Str)),
    (dedupRows l seen).Sublist l := by
  intro l
  induction l with
  | nil => intro _; exact List.Sublist.refl []
  | cons r rest ih =>
    intro seen
    by_cases h : rowKey r ∈ seen
    · simp only [dedupRows, if_pos h]
      exact (ih seen).cons r
    · simp only [dedupRows, if_neg h]
      exact (ih _).cons₂ r

theorem dedupRows_pairwise : ∀ (l : List RawRow) (seen : List (Option Str × Option Str)),
    (dedupRows l seen).Pairwise (fun a b => rowKey a ≠ rowKey b) ∧
    ∀ r ∈ dedupRows l seen, rowKey r ∉ seen := by
  intro l
  induction l with
  | nil =>
    intro seen
    exact ⟨List.Pairwise.nil, by intro r h; cases h⟩
  | cons r rest ih =>
    intro seen
    by_cases h : rowKey r ∈ seen
    · simp only [dedupRows, if_pos h]
      exact ih seen
    · simp only [dedupRows, if_neg h]
      rcases ih (rowKey r :: seen) with ⟨hp, hs⟩
      refine ⟨List.Pairwise.cons ?_ hp, ?_⟩
      · intro b hb heq
        exact hs b hb (heq ▸ List.mem_cons_self _ _)
      · intro r2 h2
        rcases List.mem_cons.mp h2 with rfl | h2'
        · exact h
        · intro hseen
          exact hs r2 h2' (List.mem_cons_of_mem _ hseen)

theorem dedupRows_cover : ∀ (l : List RawRow) (seen : List (Option Str × Option Str))
    (r : RawRow), r ∈ l →
    rowKey r ∈ seen ∨ ∃ r2 ∈ dedupRows l seen, rowKey r2 = rowKey r := by
  intro l
  induction l with
  | nil => intro seen r hr; cases hr
  | cons r0 rest ih =>
    intro seen r hr
    rcases List.mem_cons.mp hr with rfl | hr'
    · by_cases h : rowKey r ∈ seen
      · exact Or.inl h
      · refine Or.inr ⟨r, ?_, rfl⟩
        simp only [dedupRows, if_neg h]
        exact List.mem_cons_self _ _
    · by_cases h : rowKey r0 ∈ seen
      · simp only [dedupRows, if_pos h]
        exact ih seen r hr'
      · simp only [dedupRows, if_neg h]
        rcases ih (rowKey r0 :: seen) r hr' with hmem | ⟨r2, h2, hk⟩
        · rcases List.mem_cons.mp hmem with heq | hseen
          · exact Or.inr ⟨r0, List.mem_cons_self _ _, heq.symm⟩
          · exact Or.inl hseen
        · exact Or.inr ⟨r2, List.mem_cons_of_mem _ h2, hk⟩

/-- Counterexample to C5 as stated: a one-row input whose title is
missing is non-empty before cleaning, so the load does not return the
unavailable result — cleaning then drops the row and the load returns
the *empty* collection `some []`, even though the record collection is
empty after cleaning. -/
theorem c5_unavailable_counterexample :
    load_and_clean_movies (some [⟨none, some ("x".toList), none, none⟩]) = some [] ∧
    some ([] : List RawRow) ≠ none := ⟨by decide, by decide⟩

/-- Claim C5 (amended): the load performs, in order, the missing-field
drop, the genre normalisation (lowercase, spaces removed) and the
keep-first `(Title, Year)` dedup, and returns the unavailable result
(`none`, not an exception) exactly when the input is missing or the
record collection is empty *before* this cleaning; otherwise it returns
the cleaned — possibly empty — collection, each of whose rows is the
normalisation of an input row with title and genre present. -/
theorem c5_load_unavailable (rows : List RawRow) :
    load_and_clean_movies none = none ∧
    (load_and_clean_movies (some rows) = none ↔ rows = []) ∧
    (rows ≠ [] → load_and_clean_movies (some rows) =
      some (dedupRows ((rows.filter hasTitleGenre).map normGenreRow) [])) ∧
    (∀ out, load_and_clean_movies (some rows) = some out →
      ∀ r ∈ out, hasTitleGenre r = true ∧
        ∃ r0 ∈ rows, hasTitleGenre r0 = true ∧ r = normGenreRow r0) := by
  refine ⟨rfl, ?_, ?_, ?_⟩
  · unfold load_and_clean_movies
    by_cases h : rows = []
    · simp [h]
    · simp [h]
  · intro h
    simp only [load_and_clean_movies]
    rw [if_neg h]
    rfl
  · intro out hout r hr
    simp only [load_and_clean_movies] at hout
    by_cases h : rows = []
    · rw [if_pos h] at hout; cases hout
    · rw [if_neg h] at hout
      have hout' : out = cleanRows rows := (Option.some.inj hout).symm
      subst hout'
      have hmem : r ∈ (rows.filter hasTitleGenre).map normGenreRow :=
        (dedupRows_sublist _ []).subset hr
      rcases List.mem_map.mp hmem with ⟨r0, hr0, rfl⟩
      rcases List.mem_filter.mp hr0 with ⟨hr0m, hr0tg⟩
      refine ⟨?_, r0, hr0m, hr0tg, rfl⟩
      unfold hasTitleGenre at hr0tg ⊢
      simp only [Bool.and_eq_true] at hr0tg
      rcases hr0tg with ⟨ht, hg⟩
      have ht' : (normGenreRow r0).title = r0.title := rfl
      have hg' : (normGenreRow r0).genre = r0.genre.map (fun g => removeSpaces (lower g)) := rfl
      rw [ht', hg', ht]
      rcases hgv : r0.genre with _ | g
      · rw [hgv] at hg; cases hg
      · simp [hgv]

/-- Witness for the amended C5 at a concrete non-empty input. -/
theorem c5_load_unavailable_witness :
    load_and_clean_movies (some [⟨some ("T".toList), some ("Drama".toList), none, none⟩]) =
      some (dedupRows (([(⟨some ("T".toList), some ("Drama".toList), none, none⟩ : RawRow)].filter
        hasTitleGenre).map normGenreRow) []) :=
  (c5_load_unavailable [⟨some ("T".toList), some ("Drama".toList), none, none⟩]).2.2.1
    (by decide)

/-- Claim C6: on a successful load whose parsed input never contains a
present-but-empty title (pandas `read_csv` reads an empty CSV field as
missing), the returned collection has pairwise-distinct `(title, year)`
pairs, every present title is non-empty, the collection is a
subsequence of the cleaned input (first occurrence wins, extraction
order preserved), and every cleaned input row's key survives. -/
theorem c6_store_invariants (rows out : List RawRow)
    (hparse : ∀ r ∈ rows, r.title ≠ some [])
    (hload : load_and_clean_movies (some rows) = some out) :
    out.Pairwise (fun a b => rowKey a ≠ rowKey b) ∧
    (∀ r ∈ out, ∀ t, r.title = some t → t ≠ []) ∧
    out.Sublist ((rows.filter hasTitleGenre).map normGenreRow) ∧
    (∀ r ∈ (rows.filter hasTitleGenre).map normGenreRow,
      ∃ r2 ∈ out, rowKey r2 = rowKey r) := by
  simp only [load_and_clean_movies] at hload
  by_cases h : rows = []
  · rw [if_pos h] at hload; cases hload
  · rw [if_neg h] at hload
    have hout : out = cleanRows rows := (Option.some.inj hload).symm
    subst hout
    refine ⟨(dedupRows_pairwise _ []).1, ?_, dedupRows_sublist _ [], ?_⟩
    · intro r hr t ht
      have hmem : r ∈ (rows.filter hasTitleGenre).map normGenreRow :=
        (dedupRows_sublist _ []).subset hr
      rcases List.mem_map.mp hmem with ⟨r0, hr0, rfl⟩
      rcases List.mem_filter.mp hr0 with ⟨hr0m, _⟩
      have htit : r0.title = some t := ht
      intro hnil
      exact hparse r0 hr0m (by rw [htit, hnil])
    · intro r hr
      rcases dedupRows_cover _ [] r hr with hmem | hex
      · cases hmem
      · exact hex

/-- A concrete parsed CSV: a duplicate `(Title, Year)` key and a row
with a missing title. -/
def rowsC6 : List RawRow :=
  [⟨some ("A".toList), some ("Action Comedy".toList), none, some ("1999".toList)⟩,
   ⟨some ("A".toList), some ("action".toList), none, some ("1999".toList)⟩,
   ⟨none, some ("x".toList), none, none⟩]

/-- The collection the load returns on `rowsC6`. -/
def outC6 : List RawRow :=
  [⟨some ("A".toList), some ("actioncomedy".toList), none, some ("1999".toList)⟩]

/-- Witness for C6 at a concrete parsed CSV with a duplicate key. -/
theorem c6_store_invariants_witness :
    outC6.Pairwise (fun a b => rowKey a ≠ rowKey b) ∧
    (∀ r ∈ outC6, ∀ t, r.title = some t → t ≠ []) ∧
    outC6.Sublist ((rowsC6.filter hasTitleGenre).map normGenreRow) ∧
    (∀ r ∈ (rowsC6.filter hasTitleGenre).map normGenreRow,
      ∃ r2 ∈ outC6, rowKey r2 = rowKey r) :=
  c6_store_invariants rowsC6 outC6 (by decide) (by decide)

/-! ### The recommendation sampler (C8) -/

/-- `DataFrame.sample(k)` modelled with the random draw made explicit:
`order` is the index sequence the process-wide RNG produces (a
permutation of the row positions); the first `k` indices select the
sampled rows. -/
def sampleIdx (l : List Movie) (k : Nat) (order : List Nat) : List Movie :=
  (order.take k).filterMap (fun i => l.get? i)

/-- `recommend_movies`: filter by the chosen genres, take the
suggestion path (no sampled rows) on an empty result, otherwise sample
`min(num_recommendations, len(filtered))` rows without replacement. -/
def recommend_movies (df : List Movie) (qs : List Str) (n : Nat) (order : List Nat) :
    Option (List Movie) :=
  if filter_movies_by_genres df qs = [] then none
  else
    some (sampleIdx (filter_movies_by_genres df qs)
      (min n (filter_movies_by_genres df qs).length) order)

theorem filterMap_get_length (l : List Movie) : ∀ idxs : List Nat,
    (∀ i ∈ idxs, i < l.length) →
    (idxs.filterMap (fun i => l.get? i)).length = idxs.length := by
  intro idxs
  induction idxs with
  | nil => intro _; rfl
  | cons i idxs ih =>
    intro h
    have hi : i < l.length := h i (List.mem_cons_self _ _)
    have hgi : l.get? i = some (l.get ⟨i, hi⟩) := List.get?_eq_get hi
    simp only [List.filterMap_cons, hgi, List.length_cons]
    rw [ih (fun j hj => h j (List.mem_cons_of_mem _ hj))]

theorem filterMap_get_mem (l : List Movie) (idxs : List Nat) (m : Movie)
    (h : m ∈ idxs.filterMap (fun i => l.get? i)) : m ∈ l := by
  rcases List.mem_filterMap.mp h with ⟨i, _, hget⟩
  exact List.get?_mem hget

theorem filterMap_get_nodup (l : List Movie) (hl : l.Nodup) : ∀ idxs : List Nat,
    idxs.Nodup → (∀ i ∈ idxs, i < l.length) →
    (idxs.filterMap (fun i => l.get? i)).Nodup := by
  intro idxs
  induction idxs with
  | nil => intro _ _; exact List.nodup_nil
  | cons i idxs ih =>
    intro hnd hbound
    have hi : i < l.length := hbound i (List.mem_cons_self _ _)
    rcases List.nodup_cons.mp hnd with ⟨hnotin, hnd'⟩
    have hgi : l.get? i = some (l.get ⟨i, hi⟩) := List.get?_eq_get hi
    simp only [List.filterMap_cons, hgi]
    refine List.nodup_cons.mpr
      ⟨?_, ih hnd' (fun j hj => hbound j (List.mem_cons_of_mem _ hj))⟩
    intro hmem
    rcases List.mem_filterMap.mp hmem with ⟨j, hj, hget⟩
    have hjlt : j < l.length := hbound j (List.mem_cons_of_mem _ hj)
    rw [List.get?_eq_get hjlt] at hget
    have heq : l.get ⟨j, hjlt⟩ = l.get ⟨i, hi⟩ := Option.some.inj hget
    have hij : (⟨j, hjlt⟩ : Fin l.length) = ⟨i, hi⟩ := (List.Nodup.get_inj_iff hl).mp heq
    have hji : j = i := congrArg Fin.val hij
    exact hnotin (hji ▸ hj)

/-- Claim C8: with a non-empty filtered subset the sampler returns
exactly `min(N, subset size)` records, drawn without replacement (no
record appears twice) from the subset, with no error when `N` exceeds
the subset size.  The RNG draw is modelled by `order`, a duplicate-free
enumeration of the subset's row positions. -/
theorem c8_sampler (df : List Movie) (qs : List Str) (n : Nat) (order : List Nat)
    (hne : filter_movies_by_genres df qs ≠ [])
    (hnodup : (filter_movies_by_genres df qs).Nodup)
    (hord : order.Nodup)
    (hbound : ∀ i ∈ order, i < (filter_movies_by_genres df qs).length)
    (hlen : order.length = (filter_movies_by_genres df qs).length) :
    ∃ out, recommend_movies df qs n order = some out ∧
      out.length = min n (filter_movies_by_genres df qs).length ∧
      out.Nodup ∧ ∀ m ∈ out, m ∈ filter_movies_by_genres df qs := by
  unfold recommend_movies
  rw [if_neg hne]
  refine ⟨_, rfl, ?_, ?_, ?_⟩
  · unfold sampleIdx
    rw [filterMap_get_length _ _ (fun i hi => hbound i ((List.take_sublist _ _).subset hi))]
    rw [List.length_take, hlen]
    rw [Nat.min_assoc, Nat.min_self]
  · unfold sampleIdx
    exact filterMap_get_nodup _ hnodup _ ((List.take_sublist _ _).nodup hord)
      (fun i hi => hbound i ((List.take_sublist _ _).subset hi))
  · intro m hm
    exact filterMap_get_mem _ _ _ hm

/-- A concrete two-row action store. -/
def dfC8 : List Movie :=
  [⟨"A".toList, "action".toList, "N/A".toList, "1999".toList⟩,
   ⟨"B".toList, "action".toList, "N/A".toList, "2000".toList⟩]

/-- Witness for C8: requesting 5 recommendations from a 2-row filtered
set returns exactly 2 distinct rows, no error. -/
theorem c8_sampler_witness :
    ∃ out, recommend_movies dfC8 [("action".toList)] 5 [1, 0] = some out ∧
      out.length = min 5 (filter_movies_by_genres dfC8 [("action".toList)]).length ∧
      out.Nodup ∧ ∀ m ∈ out, m ∈ filter_movies_by_genres dfC8 [("action".toList)] :=
  c8_sampler dfC8 [("action".toList)] 5 [1, 0] (by decide) (by decide) (by decide)
    (by decide) (by decide)

/-! ### The fuzzy suggestion engine (C4)

`difflib.SequenceMatcher` scores are modelled exactly: the float
`2.0 * M / T` of the source is the correctly rounded image of the
rational `2 * M / T`, and the short genre strings involved keep
distinct rationals distinct as doubles, so comparisons against the
cutoff and between scores coincide with the rational model. -/

/-- Length of the common run at the heads of two suffixes. -/
def countEq (a b : Str) : Nat :=
  ((a.zip b).takeWhile (fun p => p.1 == p.2)).length

/-- `SequenceMatcher.find_longest_match` over the windows
`[alo, ahi) × [blo, bhi)` (these short strings produce no junk): the
longest matching block, earliest in `a`, then earliest in `b`;
`(alo, blo, 0)` when there is no match.  The source's DP records the
first cell attaining each strictly larger run length while scanning
`i` then `j` ascending, which selects exactly this block. -/
def flm (a b : Str) (alo ahi blo bhi : Nat) : Nat × Nat × Nat :=
  (List.range' alo (ahi - alo)).foldl (fun best i =>
    (List.range' blo (bhi - blo)).foldl (fun best j =>
      let k := min (countEq (a.drop i) (b.drop j)) (min (ahi - i) (bhi - j))
      if best.2.2 < k then (i, j, k) else best) best) (alo, blo, 0)

/-- Total matched size `M` of `get_matching_blocks` (recursing on both
sides of each longest block).  The fuel dominates the recursion depth;
`matchSumF (|a| + |b| + 1)` is exact. -/
def matchSumF : Nat → Str → Str → Nat → Nat → Nat → Nat → Nat
  | 0, _, _, _, _, _, _ => 0
  | fuel + 1, a, b, alo, ahi, blo, bhi =>
    let t := flm a b alo ahi blo bhi
    if t.2.2 = 0 then 0
    else t.2.2 +
      (if alo < t.1 ∧ blo < t.2.1 then matchSumF fuel a b alo t.1 blo t.2.1 else 0) +
      (if t.1 + t.2.2 < ahi ∧ t.2.1 + t.2.2 < bhi then
        matchSumF fuel a b (t.1 + t.2.2) ahi (t.2.1 + t.2.2) bhi else 0)

/-- `SequenceMatcher(None, a, b).ratio()` as an exact rational
`2 * M / (len(a) + len(b))` (never evaluated at two empty strings). -/
def ratioQ (a b : Str) : ℚ :=
  mkRat (2 * (matchSumF (a.length + b.length + 1) a b 0 a.length 0 b.length : Int))
    (a.length + b.length)

/-- The order in which `heapq.nlargest` emits decorated entries
`((score, candidate), position)`: Python sorts the decorated pairs
`((score, candidate), -position)` descending, i.e. by descending score,
then by descending candidate string, and only between fully equal
`(score, candidate)` tuples by ascending position. -/
def entryR (p q : (ℚ × Str) × Nat) : Prop :=
  q.1.1 < p.1.1 ∨
    (p.1.1 = q.1.1 ∧ (q.1.2 < p.1.2 ∨ (p.1.2 = q.1.2 ∧ p.2 ≤ q.2)))

instance : DecidableRel entryR := fun p q => by unfold entryR; infer_instance

instance : IsTotal ((ℚ × Str) × Nat) entryR := ⟨by
  intro p q
  unfold entryR
  rcases lt_trichotomy p.1.1 q.1.1 with h | h | h
  · exact Or.inr (Or.inl h)
  · rcases lt_trichotomy p.1.2 q.1.2 with h2 | h2 | h2
    · exact Or.inr (Or.inr ⟨h.symm, Or.inl h2⟩)
    · rcases Nat.le_total p.2 q.2 with h3 | h3
      · exact Or.inl (Or.inr ⟨h, Or.inr ⟨h2, h3⟩⟩)
      · exact Or.inr (Or.inr ⟨h.symm, Or.inr ⟨h2.symm, h3⟩⟩)
    · exact Or.inl (Or.inr ⟨h, Or.inl h2⟩)
  · exact Or.inl (Or.inl h)⟩

instance : IsTrans ((ℚ × Str) × Nat) entryR := ⟨by
  intro p q r hpq hqr
  unfold entryR at hpq hqr ⊢
  rcases hpq with h1 | ⟨e1, hpq'⟩
  · rcases hqr with h2 | ⟨e2, _⟩
    · exact Or.inl (h2.trans h1)
    · exact Or.inl (e2 ▸ h1)
  · rcases hqr with h2 | ⟨e2, hqr'⟩
    · exact Or.inl (by rw [e1]; exact h2)
    · refine Or.inr ⟨e1.trans e2, ?_⟩
      rcases hpq' with hs1 | ⟨f1, hn1⟩
      · rcases hqr' with hs2 | ⟨f2, _⟩
        · exact Or.inl (hs2.trans hs1)
        · exact Or.inl (f2 ▸ hs1)
      · rcases hqr' with hs2 | ⟨f2, hn2⟩
        · exact Or.inl (by rw [f1]; exact hs2)
        · exact Or.inr ⟨f1.trans f2, hn1.trans hn2⟩⟩

/-- The scored-candidate pass of `get_close_matches`.  The
`real_quick_ratio`/`quick_ratio` tests of the source are upper bounds
of `ratio`, so they never reject a candidate whose ratio passes the
cutoff; only the final test is modelled. -/
def scoreCandidates (word : Str) (poss : List Str) (cutoff : ℚ) : List (ℚ × Str) :=
  poss.filterMap (fun x =>
    if cutoff ≤ ratioQ x word then some (ratioQ x word, x) else none)

/-- `heapq.nlargest(n, scored)` on `(score, candidate)` pairs. -/
def nlargest (n : Nat) (scored : List (ℚ × Str)) : List (ℚ × Str) :=
  (((scored.enum.map (fun p => (p.2, p.1))).insertionSort entryR).take n).map (fun e => e.1)

/-- `difflib.get_close_matches(word, possibilities, n, cutoff)`. -/
def get_close_matches (word : Str) (poss : List Str) (n : Nat) (cutoff : ℚ) : List Str :=
  (nlargest n (scoreCandidates word poss cutoff)).map (fun p => p.2)

/-- Python `str.split(",")` (scanning loop). -/
def splitCommaGo : Str → Str → List Str
  | acc, [] => [acc.reverse]
  | acc, c :: rest =>
    if c = ',' then acc.reverse :: splitCommaGo [] rest
    else splitCommaGo (c :: acc) rest

/-- Python `str.split(",")`. -/
def splitComma (cs : Str) : List Str := splitCommaGo [] cs

/-- Append if absent: CPython set insertion, with iteration order
modelled as first-insertion order (the set's real hash order is
unspecified; the claims are settled independently of this choice). -/
def insertNew (l : List Str) (x : Str) : List Str := if x ∈ l then l else l ++ [x]

/-- `part.strip().lower()` for a comma-split genre part. -/
def cleanPart (part : Str) : Str := lower (strip part)

/-- The keep test of `get_all_genres`: non-empty and not one of the
"unknown"/"n/a" sentinels. -/
def keepPart (x : Str) : Prop :=
  x ≠ [] ∧ x ≠ ("unknown".toList) ∧ x ≠ ("n/a".toList)

instance (x : Str) : Decidable (keepPart x) := by unfold keepPart; infer_instance

/-- Processing one comma-split part inside `get_all_genres`. -/
def partStep (acc : List Str) (part : Str) : List Str :=
  if keepPart (cleanPart part) then insertNew acc (cleanPart part) else acc

/-- Processing one stored genre value inside `get_all_genres`. -/
def addParts (acc : List Str) (g : Str) : List Str :=
  (splitComma g).foldl partStep acc

/-- `get_all_genres` over the present (non-missing) genre column. -/
def get_all_genres (genreCol : List Str) : List Str := genreCol.foldl addParts []

/-- `get_genre_suggestions(chosen_genres, all_genres, cutoff)`: map
each queried genre with a non-empty suggestion list to its up-to-3
close matches; queried genres with no match are omitted. -/
def get_genre_suggestions (chosen : List Str) (allg : List Str) (cutoff : ℚ) :
    List (Str × List Str) :=
  chosen.filterMap (fun g =>
    if get_close_matches (lower g) allg 3 cutoff = [] then none
    else some (g, get_close_matches (lower g) allg 3 cutoff))

theorem insertNew_mem (l : List Str) (x y : Str) :
    y ∈ insertNew l x ↔ y ∈ l ∨ y = x := by
  unfold insertNew
  by_cases h : x ∈ l
  · rw [if_pos h]
    constructor
    · exact Or.inl
    · rintro (hy | rfl)
      · exact hy
      · exact h
  · rw [if_neg h]
    simp

theorem insertNew_nodup (l : List Str) (x : Str) (h : l.Nodup) :
    (insertNew l x).Nodup := by
  unfold insertNew
  by_cases hx : x ∈ l
  · rw [if_pos hx]; exact h
  · rw [if_neg hx]
    simp [List.nodup_append, h, hx]

theorem foldParts_mem : ∀ (parts acc : List Str) (x : Str),
    x ∈ parts.foldl partStep acc ↔
      x ∈ acc ∨ ∃ part ∈ parts, x = cleanPart part ∧ keepPart x := by
  intro parts
  induction parts with
  | nil => intro acc x; simp
  | cons p parts ih =>
    intro acc x
    simp only [List.foldl_cons]
    rw [ih]
    unfold partStep
    by_cases hk : keepPart (cleanPart p)
    · rw [if_pos hk, insertNew_mem]
      constructor
      · rintro ((h | rfl) | ⟨q, hq, hx, hkx⟩)
        · exact Or.inl h
        · exact Or.inr ⟨p, List.mem_cons_self _ _, rfl, hk⟩
        · exact Or.inr ⟨q, List.mem_cons_of_mem _ hq, hx, hkx⟩
      · rintro (h | ⟨q, hq, hx, hkx⟩)
        · exact Or.inl (Or.inl h)
        · rcases List.mem_cons.mp hq with rfl | hq'
          · exact Or.inl (Or.inr hx)
          · exact Or.inr ⟨q, hq', hx, hkx⟩
    · rw [if_neg hk]
      constructor
      · rintro (h | ⟨q, hq, hx, hkx⟩)
        · exact Or.inl h
        · exact Or.inr ⟨q, List.mem_cons_of_mem _ hq, hx, hkx⟩
      · rintro (h | ⟨q, hq, hx, hkx⟩)
        · exact Or.inl h
        · rcases List.mem_cons.mp hq with rfl | hq'
          · exact absurd (hx ▸ hkx) hk
          · exact Or.inr ⟨q, hq', hx, hkx⟩

theorem foldParts_nodup : ∀ (parts acc : List Str), acc.Nodup →
    (parts.foldl partStep acc).Nodup := by
  intro parts
  induction parts with
  | nil => intro acc h; exact h
  | cons p parts ih =>
    intro acc h
    simp only [List.foldl_cons]
    refine ih _ ?_
    unfold partStep
    by_cases hk : keepPart (cleanPart p)
    · rw [if_pos hk]; exact insertNew_nodup _ _ h
    · rw [if_neg hk]; exact h

theorem get_all_genres_go_mem : ∀ (col acc : List Str) (x : Str),
    x ∈ col.foldl addParts acc ↔
      x ∈ acc ∨ ∃ gv ∈ col, ∃ part ∈ splitComma gv, x = cleanPart part ∧ keepPart x := by
  intro col
  induction col with
  | nil => intro acc x; simp
  | cons gv col ih =>
    intro acc x
    simp only [List.foldl_cons]
    rw [ih]
    unfold addParts
    rw [foldParts_mem]
    constructor
    · rintro ((h | ⟨part, hp, hx, hk⟩) | ⟨gv2, hg2, part, hp, hx, hk⟩)
      · exact Or.inl h
      · exact Or.inr ⟨gv, List.mem_cons_self _ _, part, hp, hx, hk⟩
      · exact Or.inr ⟨gv2, List.mem_cons_of_mem _ hg2, part, hp, hx, hk⟩
    · rintro (h | ⟨gv2, hg2, part, hp, hx, hk⟩)
      · exact Or.inl (Or.inl h)
      · rcases List.mem_cons.mp hg2 with rfl | hg2'
        · exact Or.inl (Or.inr ⟨part, hp, hx, hk⟩)
        · exact Or.inr ⟨gv2, hg2', part, hp, hx, hk⟩

theorem get_all_genres_go_nodup : ∀ (col acc : List Str), acc.Nodup →
    (col.foldl addParts acc).Nodup := by
  intro col
  induction col with
  | nil => intro acc h; exact h
  | cons gv col ih =>
    intro acc h
    simp only [List.foldl_cons]
    exact ih _ (foldParts_nodup _ _ h)

theorem scoreCandidates_mem (word : Str) (poss : List Str) (cutoff : ℚ) (e : ℚ × Str) :
    e ∈ scoreCandidates word poss cutoff ↔
      e.2 ∈ poss ∧ cutoff ≤ ratioQ e.2 word ∧ e.1 = ratioQ e.2 word := by
  unfold scoreCandidates
  rw [List.mem_filterMap]
  constructor
  · rintro ⟨x, hx, hif⟩
    by_cases hc : cutoff ≤ ratioQ x word
    · rw [if_pos hc] at hif
      cases hif
      exact ⟨hx, hc, rfl⟩
    · rw [if_neg hc] at hif; cases hif
  · rintro ⟨hmem, hc, he⟩
    refine ⟨e.2, hmem, ?_⟩
    rw [if_pos hc]
    exact congrArg some (Prod.ext he.symm rfl)

theorem snd_mem_of_mem_enumFrom {α : Type} : ∀ (l : List α) (n : Nat) (q : Nat × α),
    q ∈ l.enumFrom n → q.2 ∈ l := by
  intro l
  induction l with
  | nil => intro n q h; cases h
  | cons a l ih =>
    intro n q h
    simp only [List.enumFrom] at h
    rcases List.mem_cons.mp h with rfl | h'
    · exact List.mem_cons_self _ _
    · exact List.mem_cons_of_mem _ (ih (n + 1) q h')

/-- Every entry of the decorated, sorted, truncated list originates in
the scored-candidate list. -/
theorem take_sort_mem (word : Str) (poss : List Str) (n : Nat) (cutoff : ℚ)
    (d : (ℚ × Str) × Nat)
    (hd : d ∈ (((scoreCandidates word poss cutoff).enum.map
      (fun p => (p.2, p.1))).insertionSort entryR).take n) :
    d.1 ∈ scoreCandidates word poss cutoff := by
  have hd2 : d ∈ ((scoreCandidates word poss cutoff).enum.map (fun p => (p.2, p.1))) :=
    (List.perm_insertionSort entryR _).subset ((List.take_sublist _ _).subset hd)
  rcases List.mem_map.mp hd2 with ⟨q, hq, rfl⟩
  rw [List.enum] at hq
  exact snd_mem_of_mem_enumFrom _ 0 q hq

theorem gcm_mem (word : Str) (poss : List Str) (n : Nat) (cutoff : ℚ) (m : Str)
    (h : m ∈ get_close_matches word poss n cutoff) :
    m ∈ poss ∧ cutoff ≤ ratioQ m word := by
  unfold get_close_matches nlargest at h
  rcases List.mem_map.mp h with ⟨e, he, rfl⟩
  rcases List.mem_map.mp he with ⟨d, hd, rfl⟩
  have hsc := take_sort_mem word poss n cutoff d hd
  rcases (scoreCandidates_mem word poss cutoff d.1).mp hsc with ⟨hmem, hc, _⟩
  exact ⟨hmem, hc⟩

theorem gcm_length_le (word : Str) (poss : List Str) (n : Nat) (cutoff : ℚ) :
    (get_close_matches word poss n cutoff).length ≤ n := by
  unfold get_close_matches nlargest
  simp only [List.length_map, List.length_take]
  exact Nat.min_le_left _ _

theorem gcm_pairwise (word : Str) (poss : List Str) (n : Nat) (cutoff : ℚ) :
    (get_close_matches word poss n cutoff).Pairwise (fun m1 m2 =>
      ratioQ m2 word < ratioQ m1 word ∨
        (ratioQ m1 word = ratioQ m2 word ∧ (m2 < m1 ∨ m1 = m2))) := by
  unfold get_close_matches nlargest
  rw [List.map_map, List.pairwise_map]
  have hsorted :
      ((((scoreCandidates word poss cutoff).enum.map
        (fun p => (p.2, p.1))).insertionSort entryR).take n).Pairwise entryR :=
    List.Pairwise.sublist (List.take_sublist _ _)
      (List.sorted_insertionSort entryR _)
  refine hsorted.imp_of_mem ?_
  intro a b ha hb hab
  have hsa := (scoreCandidates_mem word poss cutoff a.1).mp
    (take_sort_mem word poss n cutoff a ha)
  have hsb := (scoreCandidates_mem word poss cutoff b.1).mp
    (take_sort_mem word poss n cutoff b hb)
  unfold entryR at hab
  simp only [Function.comp]
  rcases hab with h1 | ⟨e1, h2 | ⟨e2, _⟩⟩
  · exact Or.inl (by rw [← hsa.2.2, ← hsb.2.2]; exact h1)
  · exact Or.inr ⟨by rw [← hsa.2.2, ← hsb.2.2]; exact e1, Or.inl h2⟩
  · exact Or.inr ⟨by rw [← hsa.2.2, ← hsb.2.2]; exact e1, Or.inr e2⟩

theorem gcm_ne_nil (word : Str) (poss : List Str) (cutoff : ℚ) (cand : Str)
    (hc : cand ∈ poss) (hcut : cutoff ≤ ratioQ cand word) :
    get_close_matches word poss 3 cutoff ≠ [] := by
  have hsc : (ratioQ cand word, cand) ∈ scoreCandidates word poss cutoff :=
    (scoreCandidates_mem word poss cutoff (ratioQ cand word, cand)).mpr ⟨hc, hcut, rfl⟩
  have hpos : 0 < (scoreCandidates word poss cutoff).length :=
    List.length_pos_of_mem hsc
  unfold get_close_matches nlargest
  intro hnil
  have hlen := congrArg List.length hnil
  simp only [List.length_map, List.length_take, List.length_nil] at hlen
  rw [(List.perm_insertionSort entryR _).length_eq] at hlen
  simp only [List.length_map] at hlen
  rw [List.enum_length] at hlen
  omega

theorem suggestions_mem (chosen allg : List Str) (cutoff : ℚ) (g : Str) (ms : List Str) :
    (g, ms) ∈ get_genre_suggestions chosen allg cutoff ↔
      g ∈ chosen ∧ ms = get_close_matches (lower g) allg 3 cutoff ∧ ms ≠ [] := by
  unfold get_genre_suggestions
  rw [List.mem_filterMap]
  constructor
  · rintro ⟨g0, hg0, hif⟩
    by_cases h : get_close_matches (lower g0) allg 3 cutoff = []
    · rw [if_pos h] at hif; cases hif
    · rw [if_neg h] at hif
      cases Option.some.inj hif
      exact ⟨hg0, rfl, h⟩
  · rintro ⟨hg, rfl, hne⟩
    exact ⟨g, hg, by rw [if_neg hne]⟩

/-- Claim C4 (amended): the candidate vocabulary consists of the
distinct comma-split, trimmed, lower-cased genre values present in the
store, with empties and the "unknown"/"n/a" sentinels excluded; each
queried genre maps to at most 3 candidates scoring at least the cutoff
(the source's call site fixes it at 0.6 = 3/5), ordered by descending
score with ties broken by *descending candidate string* (Python tuple
comparison inside `heapq.nlargest`; vocabulary position separates only
identical candidate strings), and a queried genre with no candidate at
or above the cutoff is omitted from the result mapping entirely. -/
theorem c4_suggestions (chosen allg genreCol : List Str) (c : ℚ) (g : Str) (ms : List Str) :
    ((g, ms) ∈ get_genre_suggestions chosen allg c →
      g ∈ chosen ∧ ms ≠ [] ∧ ms.length ≤ 3 ∧
      (∀ m ∈ ms, m ∈ allg ∧ c ≤ ratioQ m (lower g)) ∧
      ms.Pairwise (fun m1 m2 =>
        ratioQ m2 (lower g) < ratioQ m1 (lower g) ∨
          (ratioQ m1 (lower g) = ratioQ m2 (lower g) ∧ (m2 < m1 ∨ m1 = m2)))) ∧
    ((g ∈ chosen ∧ ∃ cand ∈ allg, c ≤ ratioQ cand (lower g)) ↔
      ∃ ms2, (g, ms2) ∈ get_genre_suggestions chosen allg c) ∧
    (∀ x, x ∈ get_all_genres genreCol ↔
      (∃ gv ∈ genreCol, ∃ part ∈ splitComma gv, x = cleanPart part ∧ keepPart x)) ∧
    (get_all_genres genreCol).Nodup := by
  refine ⟨?_, ?_, ?_, ?_⟩
  · intro h
    rcases (suggestions_mem chosen allg c g ms).mp h with ⟨hg, rfl, hne⟩
    refine ⟨hg, hne, gcm_length_le _ _ _ _, ?_, gcm_pairwise _ _ _ _⟩
    intro m hm
    exact gcm_mem _ _ _ _ m hm
  · constructor
    · rintro ⟨hg, cand, hcand, hcut⟩
      exact ⟨get_close_matches (lower g) allg 3 c,
        (suggestions_mem chosen allg c g _).mpr
          ⟨hg, rfl, gcm_ne_nil (lower g) allg c cand hcand hcut⟩⟩
    · rintro ⟨ms2, h⟩
      rcases (suggestions_mem chosen allg c g ms2).mp h with ⟨hg, rfl, hne⟩
      rcases List.exists_mem_of_ne_nil _ hne with ⟨m, hm⟩
      rcases gcm_mem _ _ _ _ m hm with ⟨hmem, hcut⟩
      exact ⟨hg, m, hmem, hcut⟩
  · intro x
    have := get_all_genres_go_mem genreCol [] x
    unfold get_all_genres
    rw [this]
    simp
  · exact get_all_genres_go_nodup genreCol [] List.nodup_nil

/-- Counterexample to C4 as stated: with vocabulary enumeration
["abcx", "xbcd"] and query "abcd", both candidates score exactly 3/4,
and the tie is broken by descending candidate string — the suggestion
list is ["xbcd", "abcx"] although "abcx" comes first in the vocabulary
enumeration, refuting the position tie-break. -/
theorem c4_tie_break_counterexample :
    get_genre_suggestions [("abcd".toList)] [("abcx".toList), ("xbcd".toList)] (mkRat 3 5) =
      [(("abcd".toList), [("xbcd".toList), ("abcx".toList)])] ∧
    ratioQ ("abcx".toList) ("abcd".toList) = ratioQ ("xbcd".toList) ("abcd".toList) ∧
    [("xbcd".toList), ("abcx".toList)] ≠ [("abcx".toList), ("xbcd".toList)] := by
  refine ⟨by decide, by decide, by decide⟩

/-- Witness for the amended C4 at the cutoff 3/5 on a concrete
vocabulary with a score tie. -/
theorem c4_suggestions_witness :
    ("abcd".toList) ∈ [("abcd".toList)] ∧
    [("xbcd".toList), ("abcx".toList)] ≠ [] ∧
    ([("xbcd".toList), ("abcx".toList)] : List Str).length ≤ 3 ∧
    (∀ m ∈ [("xbcd".toList), ("abcx".toList)],
      m ∈ [("abcx".toList), ("xbcd".toList)] ∧
        mkRat 3 5 ≤ ratioQ m (lower ("abcd".toList))) ∧
    ([("xbcd".toList), ("abcx".toList)] : List Str).Pairwise (fun m1 m2 =>
      ratioQ m2 (lower ("abcd".toList)) < ratioQ m1 (lower ("abcd".toList)) ∨
        (ratioQ m1 (lower ("abcd".toList)) = ratioQ m2 (lower ("abcd".toList)) ∧
          (m2 < m1 ∨ m1 = m2))) :=
  (c4_suggestions [("abcd".toList)] [("abcx".toList), ("xbcd".toList)] []
    (mkRat 3 5) ("abcd".toList) [("xbcd".toList), ("abcx".toList)]).1 (by decide)

end MovieRec
